import Mathlib

/-!
Verification of the XAR header parser and mount supervisor
(facebookincubator/xar, C++ sources in src/xar).

Strings of the C++ code (std::string) are modelled as `List Char`; bytes of
the file buffer are modelled as `Char` values (all bytes relevant to the
claims are ASCII).  Machine integers (unsigned long long) are modelled as
`Nat` with explicit bounds / `% 2 ^ 64` where overflow matters.
-/

namespace Xar

/-- Convert a Lean string literal to the `List Char` representation used
throughout this development. -/
def strL (s : String) : List Char := s.toList

/-- The single-quote character (ASCII 39). -/
def squoteC : Char := Char.ofNat 39

/-- The double-quote character (ASCII 34). -/
def dquoteC : Char := Char.ofNat 34

/-- `split(char delim, s)` from XarHelpers.h with `nsplits = -1`:
repeatedly find the next occurrence of the delimiter character and cut.
The C++ loop always pushes a final (possibly empty) piece, so the result
is never empty. -/
def splitChar (c : Char) : List Char → List (List Char)
  | [] => [[]]
  | x :: xs =>
    if x = c then [] :: splitChar c xs
    else
      match splitChar c xs with
      | r :: rs => (x :: r) :: rs
      | [] => [[x]]

/-- `split('=', line, nsplits = 1)` from XarHelpers.h: cut at the first
`'='` only; the remainder (second piece) is pushed whole.  Returns one
piece if no `'='` occurs, two pieces otherwise. -/
def splitEq1 : List Char → List (List Char)
  | [] => [[]]
  | x :: xs =>
    if x = '=' then [[], xs]
    else
      match splitEq1 xs with
      | r :: rs => (x :: r) :: rs
      | [] => [[x]]

/-- Prepend a character to the first piece of a split result (the split
functions below scan left to right and build pieces this way). -/
def consPiece (x : Char) : List (List Char) → List (List Char)
  | r :: rs => (x :: r) :: rs
  | [] => [[x]]

/-- `split("' '", s)` from XarHelpers.h specialised to the three-character
trampoline delimiter quote-space-quote: cut at each leftmost occurrence
and continue after it. -/
def splitTramp : List Char → List (List Char)
  | [] => [[]]
  | [x] => [[x]]
  | [x, y] => consPiece x (consPiece y [[]])
  | x :: y :: z :: rest =>
    if x = squoteC ∧ y = ' ' ∧ z = squoteC then [] :: splitTramp rest
    else consPiece x (splitTramp (y :: z :: rest))

/-- The decimal digit character for `d % 10` (as produced by
`std::to_string`). -/
def digitChar (d : Nat) : Char :=
  match d with
  | 0 => '0' | 1 => '1' | 2 => '2' | 3 => '3' | 4 => '4'
  | 5 => '5' | 6 => '6' | 7 => '7' | 8 => '8' | _ => '9'

/-- Fuelled digit-emission loop for `std::to_string` on an unsigned
integer; the fuel is always at least the number of digits. -/
def natToCharsGo : Nat → Nat → List Char → List Char
  | 0, _, acc => acc
  | f + 1, n, acc =>
    if n < 10 then digitChar (n % 10) :: acc
    else natToCharsGo f (n / 10) (digitChar (n % 10) :: acc)

/-- `std::to_string` on an unsigned integer: canonical decimal digits. -/
def natToChars (n : Nat) : List Char := natToCharsGo (n + 1) n []

/-- Numeric value of a list of decimal digit characters (most significant
first), as accumulated by `strtoull`. -/
def digitsVal (l : List Char) : Nat :=
  l.foldl (fun a c => 10 * a + (c.toNat - 48)) 0

/-- A character `strtoull` (via `isspace` in the "C" locale) skips as
leading whitespace. -/
def isSpaceC (c : Char) : Bool :=
  c.toNat = 32 ∨ c.toNat = 9 ∨ c.toNat = 10 ∨ c.toNat = 11 ∨
    c.toNat = 12 ∨ c.toNat = 13

/-- A decimal digit character. -/
def isDigitC (c : Char) : Bool := 48 ≤ c.toNat ∧ c.toNat ≤ 57

/-- `parseUll` from XarParser.cpp: wrapper around `strtoull` (base 10)
that requires the entire string, excluding leading whitespace, to be
consumed.  `strtoull` skips leading whitespace, accepts one optional
`+`/`-` sign, and consumes the longest run of digits; a value whose
magnitude exceeds `2 ^ 64 - 1` sets `ERANGE` ("Out of range"); with a
`-` sign the in-range magnitude is negated modulo `2 ^ 64`.  Returns the
parsed value or the error message. -/
def parseUll (s : List Char) : Except (List Char) Nat :=
  let s1 := s.dropWhile isSpaceC
  let neg : Bool := s1.head? = some '-'
  let s2 := if s1.head? = some '-' ∨ s1.head? = some '+' then s1.tail else s1
  let digs := s2.takeWhile isDigitC
  let rest := s2.dropWhile isDigitC
  if digs = [] then .error (strL "Cannot be parsed as an unsigned integer")
  else if rest ≠ [] then .error (strL "Cannot be parsed as an unsigned integer")
  else
    let m := digitsVal digs
    if 2 ^ 64 ≤ m then .error (strL "Out of range")
    else .ok (if neg then (2 ^ 64 - m) % 2 ^ 64 else m)

instance exceptDecEq {ε α : Type} [DecidableEq ε] [DecidableEq α] :
    DecidableEq (Except ε α) := fun x y =>
  match x, y with
  | .ok a, .ok b =>
    if h : a = b then .isTrue (by rw [h]) else .isFalse (by simp [h])
  | .error a, .error b =>
    if h : a = b then .isTrue (by rw [h]) else .isFalse (by simp [h])
  | .ok _, .error _ => .isFalse (by simp)
  | .error _, .ok _ => .isFalse (by simp)

/-- `XarParserErrorType` from XarParser.h. -/
inductive XarParserErrorType where
  | DUPLICATE_PARAMETER
  | FILE_OPEN
  | FILE_READ
  | INCORRECT_MAGIC
  | INVALID_OFFSET
  | INVALID_SHEBANG
  | MALFORMED_LINE
  | MISSING_PARAMETERS
  | TRAMPOLINE_ERROR
  | UNEXPECTED_END_OF_FILE
  deriving DecidableEq, Repr

/-- `XarParserError` from XarParser.h: an error type together with a
detail string. -/
structure XarParserError where
  type : XarParserErrorType
  detail : List Char
  deriving DecidableEq, Repr

/-- Modelled from the spec: the `XarHeader` record (its C++ struct
declaration lives in a header file not present under src/; field names
and types follow spec section 3 and the uses in XarParser.cpp, where
`offset` is an `unsigned long long` and the remaining fields are strings
resp. a vector of strings).  `offset` starts out value-initialised to 0;
the parser always assigns it before reading it. -/
structure XarHeader where
  offset : Nat
  uuid : List Char
  version : List Char
  xarexecTarget : List Char
  xarexecTrampolineNames : List (List Char)
  deriving DecidableEq, Repr

/-- The header value at the start of `parseXarHeader` (C++
`XarHeader xarHeader;` with empty strings and no trampoline names). -/
def emptyXarHeader : XarHeader := ⟨0, [], [], [], []⟩

/-- `kShebang` from XarHelpers.h. -/
def kShebangL : List Char := strL "#!/usr/bin/env xarexec_fuse"

/-- `kXarStop` from XarHelpers.h. -/
def kXarStopL : List Char := strL "#xar_stop"

/-- `kGuaranteedTrampolineName` from XarHelpers.h. -/
def kGuaranteedTrampolineNameL : List Char := strL "invoke_xar_via_trampoline"

/-- `kOffsetName` from XarHelpers.h. -/
def kOffsetNameL : List Char := strL "OFFSET"

/-- `kUuidName` from XarHelpers.h. -/
def kUuidNameL : List Char := strL "UUID"

/-- `kVersion` from XarHelpers.h. -/
def kVersionL : List Char := strL "VERSION"

/-- `kXarexecTarget` from XarHelpers.h. -/
def kXarexecTargetL : List Char := strL "XAREXEC_TARGET"

/-- `kXarexecTrampolineNames` from XarHelpers.h. -/
def kXarexecTrampolineNamesL : List Char := strL "XAREXEC_TRAMPOLINE_NAMES"

/-- `detail::kSquashfsMagic` from XarParser.h: bytes 0x68 0x73 0x71 0x73. -/
def kSquashfsMagicL : List Char :=
  [Char.ofNat 0x68, Char.ofNat 0x73, Char.ofNat 0x71, Char.ofNat 0x73]

/-- The validation loop inside `parseTrampolineNames` (XarParser.cpp):
walk the split result; the first name containing a single or double
quote aborts with a `TRAMPOLINE_ERROR`; otherwise record whether the
guaranteed trampoline name was seen. -/
def checkTrampolines : List (List Char) → Bool → Except XarParserError Bool
  | [], found => .ok found
  | t :: ts, found =>
    if squoteC ∈ t ∨ dquoteC ∈ t then
      .error ⟨.TRAMPOLINE_ERROR,
        strL "Single or double quotes are not allowed in trampoline names. Maybe there is more than one space between names?"⟩
    else checkTrampolines ts (found || (t = kGuaranteedTrampolineNameL))

/-- `parseTrampolineNames` from XarParser.cpp: the input must be longer
than two characters and wrapped in single quotes; the wrapped text is
split on the three-character delimiter quote-space-quote; no resulting
name may contain a quote and the guaranteed trampoline name must be
present. -/
def parseTrampolineNames (trampolineNames : List Char) :
    Except XarParserError (List (List Char)) :=
  if trampolineNames.length ≤ 2 then
    .error ⟨.TRAMPOLINE_ERROR,
      strL "There must be at least one trampoline name. Trampoline names must benon-empty and surrounded by double quotes"⟩
  else if trampolineNames.head? ≠ some squoteC ∨
      trampolineNames.getLast? ≠ some squoteC then
    .error ⟨.TRAMPOLINE_ERROR,
      strL "Expected first and last characters to be single quotes that wrap trampoline names"⟩
  else
    let ret := splitTramp ((trampolineNames.drop 1).take (trampolineNames.length - 2))
    match checkTrampolines ret false with
    | .error e => .error e
    | .ok true => .ok ret
    | .ok false =>
      .error ⟨.TRAMPOLINE_ERROR,
        strL "Missing required trampoline name: " ++ kGuaranteedTrampolineNameL⟩

/-- `detail::parseLine` from XarParser.cpp.  Takes the line, the header
built so far and the set of names already seen (modelled as a list; the
C++ `std::set` only ever feeds membership tests and a sorted
difference).  Returns the updated header and name set, or the first
error. -/
def parseLine (line : List Char) (xarHeader : XarHeader)
    (foundNames : List (List Char)) :
    Except XarParserError (XarHeader × List (List Char)) :=
  match splitEq1 line with
  | [name, wrappedValue] =>
    if name = [] ∨ wrappedValue.length < 2 ∨
        wrappedValue.head? ≠ some dquoteC ∨
        wrappedValue.getLast? ≠ some dquoteC then
      .error ⟨.MALFORMED_LINE, line⟩
    else
      let value := (wrappedValue.drop 1).take (wrappedValue.length - 2)
      if dquoteC ∈ value then .error ⟨.MALFORMED_LINE, line⟩
      else if name ∈ foundNames then .error ⟨.DUPLICATE_PARAMETER, name⟩
      else
        let foundNames' := foundNames ++ [name]
        if name = kOffsetNameL then
          match parseUll value with
          | .error msg => .error ⟨.INVALID_OFFSET, msg⟩
          | .ok off =>
            if off % 4096 ≠ 0 ∨ off = 0 then
              .error ⟨.INVALID_OFFSET,
                natToChars off ++ strL " is not a positive multiple of " ++
                  natToChars 4096⟩
            else .ok ({ xarHeader with offset := off }, foundNames')
        else if name = kVersionL then
          .ok ({ xarHeader with version := value }, foundNames')
        else if name = kUuidNameL then
          .ok ({ xarHeader with uuid := value }, foundNames')
        else if name = kXarexecTargetL then
          .ok ({ xarHeader with xarexecTarget := value }, foundNames')
        else if name = kXarexecTrampolineNamesL then
          match parseTrampolineNames value with
          | .error e => .error e
          | .ok names =>
            .ok ({ xarHeader with xarexecTrampolineNames := names }, foundNames')
        else .ok (xarHeader, foundNames')
  | _ => .error ⟨.MALFORMED_LINE, line⟩

/-- The required-parameter set of `parseXarHeader`
(`{kOffsetName, kVersion, kUuidName, kXarexecTarget}`), listed in the
`std::set` iteration order (lexicographic). -/
def requiredParameters : List (List Char) :=
  [kOffsetNameL, kUuidNameL, kVersionL, kXarexecTargetL]

/-- The `std::accumulate` in `parseXarHeader` joining the missing
parameter names: fold with `ss.empty() ? s : ss + ", " + s`. -/
def joinCommaSpace (xs : List (List Char)) : List Char :=
  xs.foldl (fun ss s => if ss = [] then s else ss ++ strL ", " ++ s) []

/-- The header-line loop of `parseXarHeader` (XarParser.cpp): parse each
line until `kXarStop`; running past the last line without meeting it is
an `UNEXPECTED_END_OF_FILE`. -/
def parseLoop : List (List Char) → XarHeader → List (List Char) →
    Except XarParserError (XarHeader × List (List Char))
  | [], _, _ =>
    .error ⟨.UNEXPECTED_END_OF_FILE, strL "Failed to find " ++ kXarStopL⟩
  | l :: rest, xarHeader, foundNames =>
    if l = kXarStopL then .ok (xarHeader, foundNames)
    else
      match parseLine l xarHeader foundNames with
      | .error e => .error e
      | .ok (h, f) => parseLoop rest h f

/-- The line-processing phase of `parseXarHeader` (XarParser.cpp): split
the buffer on newlines, check the shebang on line 0, parse line 1 which
must set `OFFSET`, enforce the `kMaxHeaderSize` bound on the offset,
then run the loop until `kXarStop`. -/
def parseHeaderLines (buf : List Char) :
    Except XarParserError (XarHeader × List (List Char)) :=
  match splitChar '\n' buf with
  | [] =>
    .error ⟨.UNEXPECTED_END_OF_FILE,
      strL "Failed to get first line which should contain shebang"⟩
  | l0 :: rest =>
    if ¬ (kShebangL.isPrefixOf l0) then .error ⟨.INVALID_SHEBANG, []⟩
    else
      match rest with
      | [] =>
        .error ⟨.UNEXPECTED_END_OF_FILE,
          strL "Failed to get next line which should contain offset"⟩
      | l1 :: rest' =>
        match parseLine l1 emptyXarHeader [] with
        | .error e => .error e
        | .ok (xarHeader, foundNames) =>
          if kOffsetNameL ∉ foundNames then
            .error ⟨.MISSING_PARAMETERS,
              strL "Expected" ++ kOffsetNameL ++ strL " to be on first line"⟩
          else if 8192 < xarHeader.offset then
            .error ⟨.INVALID_OFFSET,
              natToChars xarHeader.offset ++
                strL " is greater than max header size of " ++ natToChars 8192⟩
          else parseLoop rest' xarHeader foundNames

/-- The remainder of `parseXarHeader` after a successful read of `buf`
(XarParser.cpp lines 253-357): run the line phase, check the required
parameters, check the buffer holds `offset + sizeof(kSquashfsMagic)`
bytes, and compare the four bytes at `offset` with the squashfs magic. -/
def parseXarHeaderBuf (buf : List Char) : Except XarParserError XarHeader :=
  match parseHeaderLines buf with
  | .error e => .error e
  | .ok (xarHeader, foundNames) =>
    let missing := requiredParameters.filter (fun p => p ∉ foundNames)
    if missing ≠ [] then
      .error ⟨.MISSING_PARAMETERS, joinCommaSpace missing⟩
    else if buf.length < xarHeader.offset + 4 then
      .error ⟨.UNEXPECTED_END_OF_FILE,
        natToChars (xarHeader.offset + 4) ++
          strL " (offset + size of squashfs magic) is greater than the size of the read buffer " ++
          natToChars buf.length⟩
    else if (buf.drop xarHeader.offset).take 4 ≠ kSquashfsMagicL then
      .error ⟨.INCORRECT_MAGIC, []⟩
    else .ok xarHeader

/-- `parseXarHeader(int fd)` as a function of the file contents: the code
seeks to 0 and reads up to `kMaxHeaderSize + sizeof(kSquashfsMagic)`
= 8196 bytes with `readFull` (which loops until the buffer is full or
end of file), shrinks the buffer to the bytes actually read, errors with
`FILE_READ` when nothing was read, and otherwise continues with
`parseXarHeaderBuf`. -/
def parseXarHeaderBytes (file : List Char) : Except XarParserError XarHeader :=
  let buf := file.take (8192 + 4)
  if buf = [] then
    .error ⟨.FILE_READ, strL "Failed to read bytes from fd"⟩
  else parseXarHeaderBuf buf

/-- The `OFFSET` header line carrying the decimal value `n`:
`OFFSET="<n>"`. -/
def offsetLineC1 (n : Nat) : List Char :=
  strL "OFFSET" ++ '=' :: dquoteC :: (natToChars n ++ [dquoteC])

/-- The `UUID` line of the "otherwise valid" test header. -/
def uuidLineC1 : List Char := strL "UUID=\"d770950c\""

/-- The `VERSION` line of the "otherwise valid" test header. -/
def versionLineC1 : List Char := strL "VERSION=\"1628211316\""

/-- The `XAREXEC_TARGET` line of the "otherwise valid" test header. -/
def targetLineC1 : List Char := strL "XAREXEC_TARGET=\"xar_bootstrap.sh\""

/-- The remaining header lines of the "otherwise valid" test header:
the three other required parameters followed by the stop marker, each
terminated by a newline. -/
def fixedTailC1 : List Char :=
  uuidLineC1 ++ '\n' ::
    (versionLineC1 ++ '\n' :: (targetLineC1 ++ '\n' :: (kXarStopL ++ ['\n'])))

/-- The textual part of the "otherwise valid" header with OFFSET value
`n`: shebang line, offset line, the fixed tail. -/
def headerTextC1 (n : Nat) : List Char :=
  kShebangL ++ '\n' :: (offsetLineC1 n ++ '\n' :: fixedTailC1)

/-- A XAR file whose header is valid apart from the value of OFFSET: the
header text, padding up to byte `n`, then the squashfs magic, so that
whenever `n` is accepted the magic sits exactly at offset `n`. -/
def mkBuf (n : Nat) : List Char :=
  headerTextC1 n ++
    (List.replicate (n - (headerTextC1 n).length) '#' ++ kSquashfsMagicL)

/-- The header value parsed from `mkBuf n` when OFFSET `n` is accepted. -/
def headerC1 (n : Nat) : XarHeader :=
  ⟨n, strL "d770950c", strL "1628211316", strL "xar_bootstrap.sh", []⟩

/-- The error type of a parse result, if it is an error. -/
def resultErrorType (r : Except XarParserError XarHeader) :
    Option XarParserErrorType :=
  match r with
  | .error e => some e.type
  | .ok _ => none

/-! ### Lemmas about decimal printing (`natToChars`) and `parseUll` -/

theorem natToCharsGo_fuel (n : Nat) : ∀ (f g : Nat) (acc : List Char),
    n < f → n < g → natToCharsGo f n acc = natToCharsGo g n acc := by
  induction n using Nat.strong_induction_on with
  | _ n ih =>
    intro f g acc hf hg
    match f, g with
    | f + 1, g + 1 =>
      by_cases h10 : n < 10
      · simp [natToCharsGo, h10]
      · have hdiv : n / 10 < n := Nat.div_lt_self (by omega) (by omega)
        simp only [natToCharsGo, h10, if_false]
        exact ih (n / 10) hdiv f g _ (by omega) (by omega)

theorem natToCharsGo_append (n : Nat) : ∀ (f : Nat) (acc : List Char),
    n < f → natToCharsGo f n acc = natToCharsGo f n [] ++ acc := by
  induction n using Nat.strong_induction_on with
  | _ n ih =>
    intro f acc hf
    match f with
    | f + 1 =>
      by_cases h10 : n < 10
      · simp [natToCharsGo, h10]
      · have hdiv : n / 10 < n := Nat.div_lt_self (by omega) (by omega)
        have hlt : n / 10 < f := by omega
        simp only [natToCharsGo, h10, if_false]
        rw [ih (n / 10) hdiv f _ hlt, ih (n / 10) hdiv f [digitChar (n % 10)] hlt,
          List.append_assoc]
        rfl

theorem natToChars_lt10 (n : Nat) (h : n < 10) :
    natToChars n = [digitChar n] := by
  simp [natToChars, natToCharsGo, h, Nat.mod_eq_of_lt h]

theorem natToChars_ge10 (n : Nat) (h : 10 ≤ n) :
    natToChars n = natToChars (n / 10) ++ [digitChar (n % 10)] := by
  have h10 : ¬ n < 10 := by omega
  have hdiv : n / 10 < n := Nat.div_lt_self (by omega) (by omega)
  show natToCharsGo (n + 1) n [] = _
  rw [show natToCharsGo (n + 1) n [] =
      natToCharsGo n (n / 10) [digitChar (n % 10)] by simp [natToCharsGo, h10]]
  rw [natToCharsGo_append (n / 10) n [digitChar (n % 10)] (by omega)]
  rw [natToCharsGo_fuel (n / 10) n (n / 10 + 1) [] (by omega) (by omega)]
  rfl

theorem digitChar_isDigit : ∀ d, d < 10 → isDigitC (digitChar d) = true := by
  decide

theorem digitChar_toNat : ∀ d, d < 10 → (digitChar d).toNat = 48 + d := by
  decide

theorem natToChars_all_digit (n : Nat) :
    ∀ c ∈ natToChars n, isDigitC c = true := by
  induction n using Nat.strong_induction_on with
  | _ n ih =>
    by_cases h10 : n < 10
    · rw [natToChars_lt10 n h10]
      intro c hc
      rcases List.mem_singleton.mp hc with rfl
      exact digitChar_isDigit n h10
    · rw [natToChars_ge10 n (by omega)]
      intro c hc
      rcases List.mem_append.mp hc with h | h
      · exact ih (n / 10) (Nat.div_lt_self (by omega) (by omega)) c h
      · rcases List.mem_singleton.mp h with rfl
        exact digitChar_isDigit (n % 10) (Nat.mod_lt n (by omega))

theorem natToChars_ne_nil (n : Nat) : natToChars n ≠ [] := by
  by_cases h10 : n < 10
  · rw [natToChars_lt10 n h10]; simp
  · rw [natToChars_ge10 n (by omega)]; simp

theorem digitsVal_append_single (xs : List Char) (c : Char) :
    digitsVal (xs ++ [c]) = 10 * digitsVal xs + (c.toNat - 48) := by
  simp [digitsVal, List.foldl_append]

theorem digitsVal_natToChars (n : Nat) : digitsVal (natToChars n) = n := by
  induction n using Nat.strong_induction_on with
  | _ n ih =>
    by_cases h10 : n < 10
    · rw [natToChars_lt10 n h10]
      simp [digitsVal, digitChar_toNat n h10]
    · rw [natToChars_ge10 n (by omega), digitsVal_append_single,
        ih (n / 10) (Nat.div_lt_self (by omega) (by omega)),
        digitChar_toNat (n % 10) (Nat.mod_lt n (by omega))]
      omega

theorem natToChars_length_le (k : Nat) : ∀ n, n < 10 ^ k →
    (natToChars n).length ≤ max k 1 := by
  induction k with
  | zero =>
    intro n hn
    have : n = 0 := by simpa using hn
    subst this
    rw [natToChars_lt10 0 (by omega)]
    simp
  | succ k ih =>
    intro n hn
    by_cases h10 : n < 10
    · rw [natToChars_lt10 n h10]
      simp [Nat.le_max_right]
    · have hk : 1 ≤ k := by
        by_contra hk0
        have : k = 0 := by omega
        subst this
        simp [pow_succ] at hn
        omega
      have hdivlt : n / 10 < 10 ^ k := by
        rw [Nat.div_lt_iff_lt_mul (by omega)]
        calc n < 10 ^ (k + 1) := hn
        _ = 10 ^ k * 10 := by ring
      have := ih (n / 10) hdivlt
      rw [natToChars_ge10 n (by omega)]
      simp only [List.length_append, List.length_singleton]
      omega

theorem natToChars_length_le20 (n : Nat) (h : n < 2 ^ 64) :
    (natToChars n).length ≤ 20 := by
  have h20 : n < 10 ^ 20 := by
    calc n < 2 ^ 64 := h
    _ ≤ 10 ^ 20 := by norm_num
  have := natToChars_length_le 20 n h20
  omega

theorem takeWhile_eq_self_of_all (p : Char → Bool) :
    ∀ l : List Char, (∀ c ∈ l, p c = true) → l.takeWhile p = l := by
  intro l hl
  induction l with
  | nil => rfl
  | cons x xs ih =>
    rw [List.takeWhile_cons, hl x (by simp)]
    simp [ih (fun c hc => hl c (by simp [hc]))]

theorem dropWhile_eq_nil_of_all (p : Char → Bool) :
    ∀ l : List Char, (∀ c ∈ l, p c = true) → l.dropWhile p = [] := by
  intro l hl
  induction l with
  | nil => rfl
  | cons x xs ih =>
    rw [List.dropWhile_cons, hl x (by simp)]
    simp [ih (fun c hc => hl c (by simp [hc]))]

theorem isDigitC_not_space (c : Char) (h : isDigitC c = true) :
    isSpaceC c = false := by
  simp only [isDigitC, decide_eq_true_eq] at h
  simp only [isSpaceC, decide_eq_false_iff_not]
  omega

theorem isDigitC_ne_dash (c : Char) (h : isDigitC c = true) :
    c ≠ '-' ∧ c ≠ '+' := by
  simp only [isDigitC, decide_eq_true_eq] at h
  constructor <;> rintro rfl <;> simp at h

/-- Round trip: `parseUll` accepts the canonical decimal printing of any
value that fits in an `unsigned long long`. -/
theorem parseUll_natToChars (n : Nat) (h : n < 2 ^ 64) :
    parseUll (natToChars n) = .ok n := by
  obtain ⟨c, cs, hcons⟩ : ∃ c cs, natToChars n = c :: cs := by
    match hn : natToChars n, natToChars_ne_nil n with
    | c :: cs, _ => exact ⟨c, cs, rfl⟩
  have hall := natToChars_all_digit n
  have hc : isDigitC c = true := hall c (by rw [hcons]; simp)
  have hdrop : (natToChars n).dropWhile isSpaceC = natToChars n := by
    rw [hcons, List.dropWhile_cons, isDigitC_not_space c hc]
    simp
  have hhead : (natToChars n).head? = some c := by rw [hcons]; rfl
  have hne := isDigitC_ne_dash c hc
  have hneg : ((natToChars n).head? = some '-') = False := by
    simp [hhead, hne.1]
  have hplus : ((natToChars n).head? = some '+') = False := by
    simp [hhead, hne.2]
  have htake : (natToChars n).takeWhile isDigitC = natToChars n :=
    takeWhile_eq_self_of_all isDigitC (natToChars n) hall
  have hdropd : (natToChars n).dropWhile isDigitC = [] :=
    dropWhile_eq_nil_of_all isDigitC (natToChars n) hall
  have h' : n < 18446744073709551616 := by
    have := h; norm_num at this; exact this
  simp only [parseUll, hdrop, hneg, hplus, or_self, if_false, if_neg,
    htake, hdropd, digitsVal_natToChars]
  simp [natToChars_ne_nil n, digitsVal_natToChars, h']

/-! ### Lemmas about the split functions -/

theorem splitChar_ne_nil (c : Char) : ∀ l : List Char, splitChar c l ≠ [] := by
  intro l
  induction l with
  | nil => simp [splitChar]
  | cons x xs ih =>
    by_cases hx : x = c
    · simp [splitChar, hx]
    · simp only [splitChar, hx, if_false]
      match h : splitChar c xs with
      | [] => exact absurd h ih
      | r :: rs => simp

theorem splitChar_append_cons (c : Char) :
    ∀ l rest : List Char, c ∉ l →
      splitChar c (l ++ c :: rest) = l :: splitChar c rest := by
  intro l
  induction l with
  | nil => intro rest _; simp [splitChar]
  | cons x xs ih =>
    intro rest h
    have hx : ¬ x = c := fun hc => h (by simp [hc])
    have hxs : c ∉ xs := fun hc => h (by simp [hc])
    simp only [List.cons_append, splitChar, hx, if_false, List.append_eq]
    rw [ih rest hxs]

theorem splitChar_no_delim (c : Char) :
    ∀ l : List Char, c ∉ l → splitChar c l = [l] := by
  intro l
  induction l with
  | nil => intro _; rfl
  | cons x xs ih =>
    intro h
    have hx : ¬ x = c := fun hc => h (by simp [hc])
    have hxs : c ∉ xs := fun hc => h (by simp [hc])
    simp only [splitChar, hx, if_false]
    rw [ih hxs]

theorem splitEq1_append (pre suf : List Char) (h : '=' ∉ pre) :
    splitEq1 (pre ++ '=' :: suf) = [pre, suf] := by
  induction pre with
  | nil => simp [splitEq1]
  | cons x xs ih =>
    have hx : ¬ x = '=' := fun hc => h (by simp [hc])
    have hxs : '=' ∉ xs := fun hc => h (by simp [hc])
    simp only [List.cons_append, splitEq1, hx, if_false, List.append_eq]
    rw [ih hxs]

/-- Facts about a double-quote-wrapped value as dissected by
`parseLine`: length, first and last characters, and the extracted inner
value. -/
theorem wrappedValue_facts (v : List Char) :
    (dquoteC :: (v ++ [dquoteC])).length = v.length + 2 ∧
      (dquoteC :: (v ++ [dquoteC])).head? = some dquoteC ∧
      (dquoteC :: (v ++ [dquoteC])).getLast? = some dquoteC ∧
      ((dquoteC :: (v ++ [dquoteC])).drop 1).take
        ((dquoteC :: (v ++ [dquoteC])).length - 2) = v := by
  refine ⟨by simp, rfl, ?_, ?_⟩
  · rw [show dquoteC :: (v ++ [dquoteC]) = (dquoteC :: v) ++ [dquoteC] from by simp]
    exact List.getLast?_concat _
  · have h1 : (dquoteC :: (v ++ [dquoteC])).drop 1 = v ++ [dquoteC] := rfl
    have h2 : (dquoteC :: (v ++ [dquoteC])).length - 2 = v.length := by simp
    rw [h1, h2]
    exact List.take_left v [dquoteC]

/-! ### Lemmas about `parseLine` -/

theorem natToChars_mem_ne (n : Nat) (ch : Char)
    (hch : ch.toNat < 48 ∨ 57 < ch.toNat) : ch ∉ natToChars n := by
  intro hmem
  have := natToChars_all_digit n ch hmem
  simp only [isDigitC, decide_eq_true_eq] at this
  omega

/-- The header line `X="v"` as a character list. -/
def mkNameValueLine (X v : List Char) : List Char :=
  X ++ '=' :: dquoteC :: (v ++ [dquoteC])

theorem parseLine_empty_name (v : List Char) (hdr : XarHeader)
    (found : List (List Char)) :
    parseLine (mkNameValueLine [] v) hdr found =
      .error ⟨.MALFORMED_LINE, mkNameValueLine [] v⟩ := by
  have hs : splitEq1 (mkNameValueLine [] v) =
      [[], dquoteC :: (v ++ [dquoteC])] :=
    splitEq1_append [] _ (by simp)
  simp only [parseLine, hs]
  simp

theorem parseLine_quoted_value (X v : List Char) (hdr : XarHeader)
    (found : List (List Char)) (hX : '=' ∉ X) (hv : dquoteC ∈ v) :
    parseLine (mkNameValueLine X v) hdr found =
      .error ⟨.MALFORMED_LINE, mkNameValueLine X v⟩ := by
  obtain ⟨hlen, hhead, hlast, hval⟩ := wrappedValue_facts v
  have hs : splitEq1 (mkNameValueLine X v) = [X, dquoteC :: (v ++ [dquoteC])] :=
    splitEq1_append X _ hX
  simp only [parseLine, hs, hlen, hhead, hlast, hval]
  by_cases hXe : X = []
  · simp [hXe]
  · simp [hXe, hv]

theorem parseLine_duplicate (X v : List Char) (hdr : XarHeader)
    (found : List (List Char)) (hX : '=' ∉ X) (hXne : X ≠ [])
    (hv : dquoteC ∉ v) (hdup : X ∈ found) :
    parseLine (mkNameValueLine X v) hdr found =
      .error ⟨.DUPLICATE_PARAMETER, X⟩ := by
  obtain ⟨hlen, hhead, hlast, hval⟩ := wrappedValue_facts v
  have hs : splitEq1 (mkNameValueLine X v) = [X, dquoteC :: (v ++ [dquoteC])] :=
    splitEq1_append X _ hX
  simp only [parseLine, hs, hlen, hhead, hlast, hval]
  simp [hXne, hv, hdup]

theorem parseLine_ok_other (X v : List Char) (hdr : XarHeader)
    (found : List (List Char)) (hX : '=' ∉ X) (hXne : X ≠ [])
    (hv : dquoteC ∉ v) (hdup : X ∉ found)
    (hXO : X ≠ kOffsetNameL) (hXT : X ≠ kXarexecTrampolineNamesL) :
    ∃ hdr' : XarHeader,
      parseLine (mkNameValueLine X v) hdr found = .ok (hdr', found ++ [X]) := by
  obtain ⟨hlen, hhead, hlast, hval⟩ := wrappedValue_facts v
  have hs : splitEq1 (mkNameValueLine X v) = [X, dquoteC :: (v ++ [dquoteC])] :=
    splitEq1_append X _ hX
  simp only [parseLine, hs, hlen, hhead, hlast, hval]
  simp only [hXne, hv, hdup, hXO, hXT, if_false, or_self, false_or,
    decide_not]
  by_cases h1 : X = kVersionL
  · subst h1
    simp only [if_neg (show kVersionL ≠ kOffsetNameL from by decide),
      if_pos rfl]
    simp [hXne, hv, hdup]
  rw [if_neg h1]
  by_cases h2 : X = kUuidNameL
  · subst h2
    simp only [if_neg (show kUuidNameL ≠ kOffsetNameL from by decide),
      if_pos rfl]
    simp [hXne, hv, hdup]
  rw [if_neg h2]
  by_cases h3 : X = kXarexecTargetL
  · subst h3
    simp only [if_neg (show kXarexecTargetL ≠ kOffsetNameL from by decide),
      if_pos rfl]
    simp [hXne, hv, hdup]
  rw [if_neg h3]
  refine ⟨hdr, ?_⟩
  have hidx : v.length + 2 - 2 = v.length := by omega
  have hdrop : List.drop 1 (dquoteC :: (v ++ [dquoteC])) = v ++ [dquoteC] := rfl
  have hv2 : dquoteC ∉
      List.take (v.length + 2 - 2) (List.drop 1 (dquoteC :: (v ++ [dquoteC]))) := by
    rw [hidx, hdrop, List.take_left v [dquoteC]]
    exact hv
  rw [if_neg (by simp), if_neg hv2]

/-- `parseLine` on the `OFFSET="<n>"` line with no names seen yet:
accepts exactly the nonzero multiples of 4096 (that fit in an
`unsigned long long`), otherwise an `INVALID_OFFSET` error. -/
theorem parseLine_offsetLine (n : Nat) (hdr : XarHeader) (h64 : n < 2 ^ 64) :
    parseLine (offsetLineC1 n) hdr [] =
      if n % 4096 = 0 ∧ n ≠ 0 then
        .ok ({ hdr with offset := n }, [kOffsetNameL])
      else
        .error ⟨.INVALID_OFFSET,
          natToChars n ++ strL " is not a positive multiple of " ++
            natToChars 4096⟩ := by
  obtain ⟨hlen, hhead, hlast, hval⟩ := wrappedValue_facts (natToChars n)
  have hline : offsetLineC1 n = mkNameValueLine kOffsetNameL (natToChars n) := rfl
  have hs : splitEq1 (mkNameValueLine kOffsetNameL (natToChars n)) =
      [kOffsetNameL, dquoteC :: (natToChars n ++ [dquoteC])] :=
    splitEq1_append _ _ (by decide)
  have hq : dquoteC ∉ natToChars n := natToChars_mem_ne n dquoteC (by decide)
  rw [hline]
  have hXne : kOffsetNameL ≠ ([] : List Char) := by decide
  simp only [parseLine, hs, hlen, hhead, hlast, hXne, if_false, or_self,
    false_or, List.not_mem_nil, List.nil_append]
  have hval2 : List.take ((natToChars n).length + 2 - 2)
      (List.drop 1 (dquoteC :: (natToChars n ++ [dquoteC]))) = natToChars n := by
    have hidx : (natToChars n).length + 2 - 2 = (natToChars n).length := by omega
    rw [hidx]
    exact List.take_left _ [dquoteC]
  rw [hval2]
  rw [if_neg (show ¬((natToChars n).length + 2 < 2 ∨
      some dquoteC ≠ some dquoteC) from by simp)]
  rw [if_neg hq]
  rw [if_pos trivial, parseUll_natToChars n h64]
  by_cases hcond : n % 4096 = 0 ∧ n ≠ 0
  · rw [if_pos hcond]
    simp [hcond.1, hcond.2]
  · rw [if_neg hcond]
    have h' : n % 4096 ≠ 0 ∨ n = 0 := by tauto
    rcases h' with h | h
    · simp [h]
    · simp [h]

/-! ### The C1 buffer family: line decomposition and parse results -/

theorem newline_not_in_offsetLine (n : Nat) : '\n' ∉ offsetLineC1 n := by
  intro h
  simp only [offsetLineC1, List.mem_append, List.mem_cons,
    List.mem_singleton] at h
  rcases h with h | h | h | h | h
  · revert h; decide
  · revert h; decide
  · revert h; decide
  · exact natToChars_mem_ne n '\n' (by decide) h
  · revert h; decide

theorem headerTextC1_length (n : Nat) :
    (headerTextC1 n).length = 119 + (natToChars n).length := by
  have h1 : kShebangL.length = 27 := by decide
  have h2 : fixedTailC1.length = 81 := by decide
  have h3 : (strL "OFFSET").length = 6 := by decide
  simp only [headerTextC1, offsetLineC1, List.length_append, List.length_cons,
    List.length_singleton, List.length_nil, h1, h2, h3]
  omega

theorem mkBuf_shape (n : Nat) : mkBuf n =
    kShebangL ++ '\n' :: (offsetLineC1 n ++ '\n' ::
      (uuidLineC1 ++ '\n' ::
        (versionLineC1 ++ '\n' ::
          (targetLineC1 ++ '\n' ::
            (kXarStopL ++ '\n' ::
              (List.replicate (n - (headerTextC1 n).length) '#' ++
                kSquashfsMagicL)))))) := by
  show headerTextC1 n ++ _ = _
  simp [headerTextC1, fixedTailC1, List.append_assoc, List.cons_append]

theorem splitChar_mkBuf (n : Nat) : splitChar '\n' (mkBuf n) =
    [kShebangL, offsetLineC1 n, uuidLineC1, versionLineC1, targetLineC1,
      kXarStopL,
      List.replicate (n - (headerTextC1 n).length) '#' ++ kSquashfsMagicL] := by
  have hpm : '\n' ∉
      List.replicate (n - (headerTextC1 n).length) '#' ++ kSquashfsMagicL := by
    intro h
    rcases List.mem_append.mp h with h | h
    · rcases List.mem_replicate.mp h with ⟨_, h⟩
      exact absurd h (by decide)
    · revert h; decide
  rw [mkBuf_shape n,
    splitChar_append_cons '\n' kShebangL _ (by decide),
    splitChar_append_cons '\n' (offsetLineC1 n) _ (newline_not_in_offsetLine n),
    splitChar_append_cons '\n' uuidLineC1 _ (by decide),
    splitChar_append_cons '\n' versionLineC1 _ (by decide),
    splitChar_append_cons '\n' targetLineC1 _ (by decide),
    splitChar_append_cons '\n' kXarStopL _ (by decide),
    splitChar_no_delim '\n' _ hpm]

theorem parseLoop_fixedC1 (n : Nat) (junk : List Char) :
    parseLoop [uuidLineC1, versionLineC1, targetLineC1, kXarStopL, junk]
      { emptyXarHeader with offset := n } [kOffsetNameL] =
      .ok (headerC1 n, [kOffsetNameL, kUuidNameL, kVersionL, kXarexecTargetL]) :=
  rfl

/-- Parsing the "otherwise valid" buffer with an accepted OFFSET value
returns the expected header. -/
theorem parse_mkBuf_valid (n : Nat) (h64 : n < 2 ^ 64) (hpos : 0 < n)
    (hle : n ≤ 8192) (hmod : n % 4096 = 0) :
    parseXarHeaderBytes (mkBuf n) = .ok (headerC1 n) := by
  have hge : 4096 ≤ n := by
    rcases Nat.lt_or_ge n 4096 with h | h
    · have := Nat.mod_eq_of_lt h; omega
    · exact h
  have hdig : (natToChars n).length ≤ 20 := natToChars_length_le20 n h64
  have hht := headerTextC1_length n
  have hbuflen : (mkBuf n).length = n + 4 := by
    have hm : kSquashfsMagicL.length = 4 := by decide
    simp only [mkBuf, List.length_append, List.length_replicate, hm, hht]
    omega
  have htake : (mkBuf n).take (8192 + 4) = mkBuf n :=
    List.take_of_length_le (by omega)
  have hnb : ¬ mkBuf n = [] := by
    intro h
    have := congrArg List.length h
    rw [hbuflen] at this
    simp at this
  have hnzero : n ≠ 0 := by omega
  have hnle : ¬ 8192 < n := by omega
  have hlines : parseHeaderLines (mkBuf n) =
      .ok (headerC1 n,
        [kOffsetNameL, kUuidNameL, kVersionL, kXarexecTargetL]) := by
    have hpre : kShebangL.isPrefixOf kShebangL = true := by decide
    simp only [parseHeaderLines, splitChar_mkBuf n, hpre, not_true,
      if_false, parseLine_offsetLine n emptyXarHeader h64, hmod, hnzero,
      ne_eq, not_false_iff, and_self, if_true, ite_true, ite_false,
      List.mem_singleton, hnle, parseLoop_fixedC1]
  have hfin : requiredParameters.filter
      (fun p => p ∉ [kOffsetNameL, kUuidNameL, kVersionL, kXarexecTargetL]) =
      [] := by decide
  have hmagic : ((mkBuf n).drop n).take 4 = kSquashfsMagicL := by
    have hcore : mkBuf n =
        (headerTextC1 n ++ List.replicate (n - (headerTextC1 n).length) '#') ++
          kSquashfsMagicL := by
      simp [mkBuf, List.append_assoc]
    obtain ⟨A, hA, hAlen⟩ :
        ∃ A : List Char, mkBuf n = A ++ kSquashfsMagicL ∧ A.length = n :=
      ⟨_, hcore, by
        simp only [List.length_append, List.length_replicate, hht]
        omega⟩
    rw [hA, ← hAlen, List.drop_left]
    rfl
  simp only [parseXarHeaderBytes, htake]
  rw [if_neg hnb]
  simp only [parseXarHeaderBuf, hlines, hfin]
  rw [if_neg (show ¬ ¬ ([] : List (List Char)) = [] from by simp)]
  have hoff : (headerC1 n).offset = n := rfl
  rw [hoff, if_neg (show ¬ (mkBuf n).length < n + 4 from by omega),
    if_neg (show ¬ ((mkBuf n).drop n).take 4 ≠ kSquashfsMagicL from by
      simp [hmagic])]

/-- Parsing the "otherwise valid" buffer with a rejected OFFSET value
fails with `INVALID_OFFSET` (either in `parseLine` or at the
`kMaxHeaderSize` bound). -/
theorem parse_mkBuf_invalid (n : Nat) (h64 : n < 2 ^ 64)
    (hinv : ¬ (0 < n ∧ n ≤ 8192 ∧ n % 4096 = 0)) :
    resultErrorType (parseXarHeaderBytes (mkBuf n)) =
      some .INVALID_OFFSET := by
  have hdig : (natToChars n).length ≤ 20 := natToChars_length_le20 n h64
  have holen : (offsetLineC1 n).length = 9 + (natToChars n).length := by
    have h3 : (strL "OFFSET").length = 6 := by decide
    simp only [offsetLineC1, List.length_append, List.length_cons,
      List.length_singleton, List.length_nil, h3]
    omega
  obtain ⟨R, hR⟩ : ∃ R : List Char, mkBuf n =
      ((kShebangL ++ ['\n']) ++ (offsetLineC1 n ++ ['\n'])) ++ R :=
    ⟨fixedTailC1 ++ (List.replicate (n - (headerTextC1 n).length) '#' ++
        kSquashfsMagicL), by
      simp [mkBuf, headerTextC1, List.append_assoc]⟩
  have hAlen : ((kShebangL ++ ['\n']) ++ (offsetLineC1 n ++ ['\n'])).length =
      38 + (natToChars n).length := by
    have h1 : kShebangL.length = 27 := by decide
    simp [List.length_append, h1, holen]
    omega
  have htake : (mkBuf n).take (8192 + 4) =
      ((kShebangL ++ ['\n']) ++ (offsetLineC1 n ++ ['\n'])) ++
        R.take (8192 + 4 -
          ((kShebangL ++ ['\n']) ++ (offsetLineC1 n ++ ['\n'])).length) := by
    rw [hR, List.take_append_eq_append_take,
      List.take_of_length_le (by omega)]
  have hshape : ((kShebangL ++ ['\n']) ++ (offsetLineC1 n ++ ['\n'])) ++
      R.take (8192 + 4 -
        ((kShebangL ++ ['\n']) ++ (offsetLineC1 n ++ ['\n'])).length) =
      kShebangL ++ '\n' :: (offsetLineC1 n ++ '\n' ::
        R.take (8192 + 4 -
          ((kShebangL ++ ['\n']) ++ (offsetLineC1 n ++ ['\n'])).length)) := by
    simp [List.append_assoc]
  have hnb : ((kShebangL ++ ['\n']) ++ (offsetLineC1 n ++ ['\n'])) ++
      R.take (8192 + 4 -
        ((kShebangL ++ ['\n']) ++ (offsetLineC1 n ++ ['\n'])).length) ≠ [] := by
    apply List.append_ne_nil_of_left_ne_nil
    simp
  have hsplit : splitChar '\n'
      (((kShebangL ++ ['\n']) ++ (offsetLineC1 n ++ ['\n'])) ++
        R.take (8192 + 4 -
          ((kShebangL ++ ['\n']) ++ (offsetLineC1 n ++ ['\n'])).length)) =
      kShebangL :: offsetLineC1 n :: splitChar '\n'
        (R.take (8192 + 4 -
          ((kShebangL ++ ['\n']) ++ (offsetLineC1 n ++ ['\n'])).length)) := by
    rw [hshape,
      splitChar_append_cons '\n' kShebangL _ (by decide),
      splitChar_append_cons '\n' (offsetLineC1 n) _
        (newline_not_in_offsetLine n)]
  simp only [parseXarHeaderBytes, htake]
  rw [if_neg hnb]
  have hpre : kShebangL.isPrefixOf kShebangL = true := by decide
  by_cases hbad : n % 4096 = 0 ∧ n ≠ 0
  · -- the offset line parses; the max-header-size bound must reject
    have hgt : 8192 < n := by
      rcases Nat.lt_or_ge 8192 n with h | h
      · exact h
      · exact absurd ⟨by omega, h, hbad.1⟩ hinv
    simp only [parseXarHeaderBuf, parseHeaderLines, hsplit, hpre, not_true,
      if_false, parseLine_offsetLine n emptyXarHeader h64, hbad.1, hbad.2,
      ne_eq, not_false_iff, and_self, if_true, ite_true, ite_false,
      List.mem_singleton]
    rw [if_pos hgt]
    rfl
  · -- the offset line itself is rejected
    simp only [parseXarHeaderBuf, parseHeaderLines, hsplit, hpre, not_true,
      if_false, parseLine_offsetLine n emptyXarHeader h64,
      if_neg hbad, ite_false]
    rfl

/-! ### Claim C1 -/

/-- Claim C1: for every OFFSET value in an otherwise valid header (the
`mkBuf` family, which pads the header so that the squashfs magic sits at
byte `n`), `parseXarHeader` accepts the offset if and only if
`0 < offset ≤ 8192 ∧ offset % 4096 == 0` (acceptance yields the parsed
header), and rejects with an `INVALID_OFFSET` error otherwise.  OFFSET
values are `unsigned long long`, hence the bound `n < 2 ^ 64`. -/
theorem claim_C1_offset_validation (n : Nat) (h64 : n < 2 ^ 64) :
    ((0 < n ∧ n ≤ 8192 ∧ n % 4096 = 0) →
      parseXarHeaderBytes (mkBuf n) = .ok (headerC1 n)) ∧
    (¬ (0 < n ∧ n ≤ 8192 ∧ n % 4096 = 0) →
      resultErrorType (parseXarHeaderBytes (mkBuf n)) =
        some .INVALID_OFFSET) := by
  constructor
  · rintro ⟨h1, h2, h3⟩
    exact parse_mkBuf_valid n h64 h1 h2 h3
  · intro h
    exact parse_mkBuf_invalid n h64 h

/-- Witness for C1 at the boundary offsets 0, 4096, 8192, 4097, 16384:
classified invalid, valid, valid, invalid, invalid. -/
theorem claim_C1_witness :
    resultErrorType (parseXarHeaderBytes (mkBuf 0)) = some .INVALID_OFFSET ∧
    parseXarHeaderBytes (mkBuf 4096) = .ok (headerC1 4096) ∧
    parseXarHeaderBytes (mkBuf 8192) = .ok (headerC1 8192) ∧
    resultErrorType (parseXarHeaderBytes (mkBuf 4097)) = some .INVALID_OFFSET ∧
    resultErrorType (parseXarHeaderBytes (mkBuf 16384)) =
      some .INVALID_OFFSET :=
  ⟨(claim_C1_offset_validation 0 (by norm_num)).2 (by simp),
   (claim_C1_offset_validation 4096 (by norm_num)).1 (by norm_num),
   (claim_C1_offset_validation 8192 (by norm_num)).1 (by norm_num),
   (claim_C1_offset_validation 4097 (by norm_num)).2 (by omega),
   (claim_C1_offset_validation 16384 (by norm_num)).2 (by omega)⟩

/-! ### Claim C2 -/

theorem checkTrampolines_eq (ts : List (List Char)) : ∀ b : Bool,
    ((∀ t ∈ ts, squoteC ∉ t ∧ dquoteC ∉ t) →
      checkTrampolines ts b =
        .ok (b || ts.any fun t => decide (t = kGuaranteedTrampolineNameL))) ∧
    ((¬ ∀ t ∈ ts, squoteC ∉ t ∧ dquoteC ∉ t) →
      checkTrampolines ts b = .error ⟨.TRAMPOLINE_ERROR,
        strL "Single or double quotes are not allowed in trampoline names. Maybe there is more than one space between names?"⟩) := by
  induction ts with
  | nil =>
    intro b
    refine ⟨fun _ => by simp [checkTrampolines], fun h => absurd (by simp) h⟩
  | cons t ts ih =>
    intro b
    constructor
    · intro hall
      have ht := hall t (by simp)
      have hq : ¬ (squoteC ∈ t ∨ dquoteC ∈ t) := by
        rcases ht with ⟨h1, h2⟩
        simp [h1, h2]
      rw [show checkTrampolines (t :: ts) b =
          (if squoteC ∈ t ∨ dquoteC ∈ t then
            .error ⟨.TRAMPOLINE_ERROR,
              strL "Single or double quotes are not allowed in trampoline names. Maybe there is more than one space between names?"⟩
          else checkTrampolines ts
            (b || (t = kGuaranteedTrampolineNameL))) from rfl]
      rw [if_neg hq,
        (ih (b || (t = kGuaranteedTrampolineNameL))).1
          (fun t' ht' => hall t' (by simp [ht']))]
      simp [Bool.or_assoc]
    · intro hnall
      by_cases hq : squoteC ∈ t ∨ dquoteC ∈ t
      · rw [show checkTrampolines (t :: ts) b =
            (if squoteC ∈ t ∨ dquoteC ∈ t then
              .error ⟨.TRAMPOLINE_ERROR,
                strL "Single or double quotes are not allowed in trampoline names. Maybe there is more than one space between names?"⟩
            else checkTrampolines ts
              (b || (t = kGuaranteedTrampolineNameL))) from rfl]
        rw [if_pos hq]
      · have hts : ¬ ∀ t' ∈ ts, squoteC ∉ t' ∧ dquoteC ∉ t' := by
          intro hall
          apply hnall
          intro t' ht'
          rcases List.mem_cons.mp ht' with rfl | h
          · exact ⟨(not_or.mp hq).1, (not_or.mp hq).2⟩
          · exact hall t' h
        rw [show checkTrampolines (t :: ts) b =
            (if squoteC ∈ t ∨ dquoteC ∈ t then
              .error ⟨.TRAMPOLINE_ERROR,
                strL "Single or double quotes are not allowed in trampoline names. Maybe there is more than one space between names?"⟩
            else checkTrampolines ts
              (b || (t = kGuaranteedTrampolineNameL))) from rfl]
        rw [if_neg hq]
        exact (ih _).2 hts

/-- Claim C2 (amended): the trampoline sub-parser succeeds if and only
if its input is longer than two characters, begins and ends with a
single quote, and after stripping those quotes and splitting on the
three-character delimiter quote-space-quote no element contains a single
or double quote and the list contains `invoke_xar_via_trampoline`
(element non-emptiness is NOT checked); any violation yields a
`TRAMPOLINE_ERROR`, and on success the returned list is exactly the
split, in input order. -/
theorem claim_C2_trampoline (tn : List Char) :
    ((∃ names, parseTrampolineNames tn = .ok names) ↔
      (2 < tn.length ∧ tn.head? = some squoteC ∧ tn.getLast? = some squoteC ∧
        (∀ t ∈ splitTramp ((tn.drop 1).take (tn.length - 2)),
          squoteC ∉ t ∧ dquoteC ∉ t) ∧
        kGuaranteedTrampolineNameL ∈
          splitTramp ((tn.drop 1).take (tn.length - 2)))) ∧
    (∀ names, parseTrampolineNames tn = .ok names →
      names = splitTramp ((tn.drop 1).take (tn.length - 2))) ∧
    (∀ e, parseTrampolineNames tn = .error e →
      e.type = .TRAMPOLINE_ERROR) := by
  by_cases h1 : tn.length ≤ 2
  · have h1' : ¬ 2 < tn.length := by omega
    refine ⟨?_, ?_, ?_⟩
    · simp only [parseTrampolineNames, if_pos h1]
      constructor
      · rintro ⟨names, h⟩
        cases h
      · rintro ⟨h, _⟩
        exact absurd h h1'
    · intro names h
      simp only [parseTrampolineNames, if_pos h1] at h
      cases h
    · intro e h
      simp only [parseTrampolineNames, if_pos h1] at h
      cases h
      rfl
  · by_cases h2 : tn.head? ≠ some squoteC ∨ tn.getLast? ≠ some squoteC
    · refine ⟨?_, ?_, ?_⟩
      · simp only [parseTrampolineNames, if_neg h1, if_pos h2]
        constructor
        · rintro ⟨names, h⟩
          cases h
        · rintro ⟨_, hh, hl, _⟩
          rcases h2 with h2 | h2
          · exact absurd hh h2
          · exact absurd hl h2
      · intro names h
        simp only [parseTrampolineNames, if_neg h1, if_pos h2] at h
        cases h
      · intro e h
        simp only [parseTrampolineNames, if_neg h1, if_pos h2] at h
        cases h
        rfl
    · push_neg at h2
      by_cases h3 : ∀ t ∈ splitTramp ((tn.drop 1).take (tn.length - 2)),
          squoteC ∉ t ∧ dquoteC ∉ t
      · have hchk := (checkTrampolines_eq
          (splitTramp ((tn.drop 1).take (tn.length - 2))) false).1 h3
        by_cases h4 : kGuaranteedTrampolineNameL ∈
            splitTramp ((tn.drop 1).take (tn.length - 2))
        · have hany : (splitTramp ((tn.drop 1).take (tn.length - 2))).any
              (fun t => decide (t = kGuaranteedTrampolineNameL)) = true := by
            rw [List.any_eq_true]
            exact ⟨_, h4, by simp⟩
          refine ⟨?_, ?_, ?_⟩
          · simp only [parseTrampolineNames, if_neg h1,
              if_neg (show ¬ (tn.head? ≠ some squoteC ∨
                tn.getLast? ≠ some squoteC) from by simp [h2.1, h2.2]),
              hchk, Bool.false_or, hany]
            constructor
            · intro _
              exact ⟨by omega, h2.1, h2.2, h3, h4⟩
            · intro _
              exact ⟨_, rfl⟩
          · intro names h
            simp only [parseTrampolineNames, if_neg h1,
              if_neg (show ¬ (tn.head? ≠ some squoteC ∨
                tn.getLast? ≠ some squoteC) from by simp [h2.1, h2.2]),
              hchk, Bool.false_or, hany] at h
            cases h
            rfl
          · intro e h
            simp only [parseTrampolineNames, if_neg h1,
              if_neg (show ¬ (tn.head? ≠ some squoteC ∨
                tn.getLast? ≠ some squoteC) from by simp [h2.1, h2.2]),
              hchk, Bool.false_or, hany] at h
            cases h
        · have hany : (splitTramp ((tn.drop 1).take (tn.length - 2))).any
              (fun t => decide (t = kGuaranteedTrampolineNameL)) = false := by
            rw [Bool.eq_false_iff]
            intro hc
            rcases List.any_eq_true.mp hc with ⟨t, ht, hteq⟩
            rcases of_decide_eq_true hteq with rfl
            exact h4 ht
          refine ⟨?_, ?_, ?_⟩
          · simp only [parseTrampolineNames, if_neg h1,
              if_neg (show ¬ (tn.head? ≠ some squoteC ∨
                tn.getLast? ≠ some squoteC) from by simp [h2.1, h2.2]),
              hchk, Bool.false_or, hany]
            constructor
            · rintro ⟨names, h⟩
              cases h
            · rintro ⟨_, _, _, _, hmem⟩
              exact absurd hmem h4
          · intro names h
            simp only [parseTrampolineNames, if_neg h1,
              if_neg (show ¬ (tn.head? ≠ some squoteC ∨
                tn.getLast? ≠ some squoteC) from by simp [h2.1, h2.2]),
              hchk, Bool.false_or, hany] at h
            cases h
          · intro e h
            simp only [parseTrampolineNames, if_neg h1,
              if_neg (show ¬ (tn.head? ≠ some squoteC ∨
                tn.getLast? ≠ some squoteC) from by simp [h2.1, h2.2]),
              hchk, Bool.false_or, hany] at h
            cases h
            rfl
      · have hchk := (checkTrampolines_eq
          (splitTramp ((tn.drop 1).take (tn.length - 2))) false).2 h3
        refine ⟨?_, ?_, ?_⟩
        · simp only [parseTrampolineNames, if_neg h1,
            if_neg (show ¬ (tn.head? ≠ some squoteC ∨
              tn.getLast? ≠ some squoteC) from by simp [h2.1, h2.2]),
            hchk]
          constructor
          · rintro ⟨names, h⟩
            cases h
          · rintro ⟨_, _, _, hq, _⟩
            exact absurd hq h3
        · intro names h
          simp only [parseTrampolineNames, if_neg h1,
            if_neg (show ¬ (tn.head? ≠ some squoteC ∨
              tn.getLast? ≠ some squoteC) from by simp [h2.1, h2.2]),
            hchk] at h
          cases h
        · intro e h
          simp only [parseTrampolineNames, if_neg h1,
            if_neg (show ¬ (tn.head? ≠ some squoteC ∨
              tn.getLast? ≠ some squoteC) from by simp [h2.1, h2.2]),
            hchk] at h
          cases h
          rfl

/-- Counterexample to C2 as stated: the input
`'invoke_xar_via_trampoline' ''` parses successfully although its
second element is empty — the sub-parser does not check that elements
are non-empty. -/
theorem claim_C2_counterexample :
    parseTrampolineNames
        (strL "\x27invoke_xar_via_trampoline\x27 \x27\x27") =
      .ok [kGuaranteedTrampolineNameL, []] ∧
    ([] : List Char) ∈ [kGuaranteedTrampolineNameL, ([] : List Char)] := by
  exact ⟨by decide, by simp⟩

/-! ### Claim C6 -/

/-- Claim C6 (amended): for every name `X` that contains no `=` and is
neither `OFFSET` nor `XAREXEC_TRAMPOLINE_NAMES`, `parseLine` applied to
the line `X="v"` with a fresh found-names set succeeds if and only if
`X` is non-empty and `v` contains no double quote; applying `parseLine`
again to the same line (hence the same name `X`) yields a
`DUPLICATE_PARAMETER` error naming `X`. -/
theorem claim_C6_parseLine (X v : List Char) (hX : '=' ∉ X)
    (hXO : X ≠ kOffsetNameL) (hXT : X ≠ kXarexecTrampolineNamesL) :
    ((∃ r, parseLine (mkNameValueLine X v) emptyXarHeader [] = .ok r) ↔
      (X ≠ [] ∧ dquoteC ∉ v)) ∧
    (∀ hdr' found',
      parseLine (mkNameValueLine X v) emptyXarHeader [] = .ok (hdr', found') →
      parseLine (mkNameValueLine X v) hdr' found' =
        .error ⟨.DUPLICATE_PARAMETER, X⟩) := by
  have hfwd : (∃ r, parseLine (mkNameValueLine X v) emptyXarHeader [] = .ok r) →
      X ≠ [] ∧ dquoteC ∉ v := by
    rintro ⟨r, hr⟩
    constructor
    · rintro rfl
      rw [parseLine_empty_name v emptyXarHeader []] at hr
      cases hr
    · intro hv
      rw [parseLine_quoted_value X v emptyXarHeader [] hX hv] at hr
      cases hr
  refine ⟨⟨hfwd, ?_⟩, ?_⟩
  · rintro ⟨hXne, hv⟩
    obtain ⟨hdr', h⟩ :=
      parseLine_ok_other X v emptyXarHeader [] hX hXne hv (by simp) hXO hXT
    exact ⟨_, h⟩
  · intro hdr' found' h
    obtain ⟨hXne, hv⟩ := hfwd ⟨_, h⟩
    obtain ⟨hdr'', h2⟩ :=
      parseLine_ok_other X v emptyXarHeader [] hX hXne hv (by simp) hXO hXT
    rw [h] at h2
    simp only [Except.ok.injEq, Prod.mk.injEq, List.nil_append] at h2
    rw [h2.2]
    exact parseLine_duplicate X v hdr' [X] hX hXne hv (by simp)

/-- Counterexample to C6 as stated (with `X` ranging over every name):
at `X = OFFSET`, `v = "Q"` the name is non-empty and the value contains
no double quote, yet `parseLine` fails (with `INVALID_OFFSET`), so the
claimed "succeeds iff X non-empty and v has no double quote" is false. -/
theorem claim_C6_counterexample :
    (kOffsetNameL ≠ [] ∧ dquoteC ∉ strL "Q") ∧
    parseLine (mkNameValueLine kOffsetNameL (strL "Q")) emptyXarHeader [] =
      .error ⟨.INVALID_OFFSET,
        strL "Cannot be parsed as an unsigned integer"⟩ :=
  ⟨by decide, by decide⟩

/-- Witness for C6 at the concrete name `FOO` and value `bar`. -/
theorem claim_C6_witness :
    ∃ r, parseLine (mkNameValueLine (strL "FOO") (strL "bar"))
      emptyXarHeader [] = .ok r :=
  (claim_C6_parseLine (strL "FOO") (strL "bar") (by decide) (by decide)
    (by decide)).1.mpr ⟨by decide, by decide⟩

/-! ### Claims C7 and C8 -/

/-- Claim C7: once all header lines are accepted (the line phase returns
a header and a found-name set) and no required parameter is missing,
`parseXarHeader` returns `UNEXPECTED_END_OF_FILE` when the bytes read
are fewer than `offset + 4`; otherwise it returns `INCORRECT_MAGIC` if
and only if the 4 bytes at `offset` differ from 0x68 0x73 0x71 0x73,
and the parsed header when they are equal. -/
theorem claim_C7_magic (buf : List Char) (hdr : XarHeader)
    (found : List (List Char))
    (hlines : parseHeaderLines buf = .ok (hdr, found))
    (hreq : requiredParameters.filter (fun p => p ∉ found) = []) :
    (buf.length < hdr.offset + 4 →
      resultErrorType (parseXarHeaderBuf buf) =
        some .UNEXPECTED_END_OF_FILE) ∧
    (hdr.offset + 4 ≤ buf.length →
      (((buf.drop hdr.offset).take 4 ≠ kSquashfsMagicL →
          resultErrorType (parseXarHeaderBuf buf) = some .INCORRECT_MAGIC) ∧
        ((buf.drop hdr.offset).take 4 = kSquashfsMagicL →
          parseXarHeaderBuf buf = .ok hdr))) := by
  refine ⟨fun hlt => ?_, fun hlen => ⟨fun hne => ?_, fun heq => ?_⟩⟩
  · simp only [parseXarHeaderBuf, hlines, hreq]
    rw [if_neg (show ¬ ¬ ([] : List (List Char)) = [] from by simp),
      if_pos hlt]
    rfl
  · simp only [parseXarHeaderBuf, hlines, hreq]
    rw [if_neg (show ¬ ¬ ([] : List (List Char)) = [] from by simp),
      if_neg (show ¬ buf.length < hdr.offset + 4 from by omega),
      if_pos hne]
    rfl
  · simp only [parseXarHeaderBuf, hlines, hreq]
    rw [if_neg (show ¬ ¬ ([] : List (List Char)) = [] from by simp),
      if_neg (show ¬ buf.length < hdr.offset + 4 from by omega),
      if_neg (show ¬ (buf.drop hdr.offset).take 4 ≠ kSquashfsMagicL from by
        simp [heq])]

/-- Witness for C7: a buffer holding only the header text (no padding,
no magic) satisfies the hypotheses and falls into the
`UNEXPECTED_END_OF_FILE` branch. -/
theorem claim_C7_witness :
    resultErrorType (parseXarHeaderBuf (headerTextC1 4096)) =
      some .UNEXPECTED_END_OF_FILE :=
  (claim_C7_magic (headerTextC1 4096) (headerC1 4096)
    [kOffsetNameL, kUuidNameL, kVersionL, kXarexecTargetL]
    (by decide) (by decide)).1 (by decide)

/-- Claim C8: if the line phase terminates at `#xar_stop` with no line
error but some required names were not seen, `parseXarHeader` returns
`MISSING_PARAMETERS` whose detail is the comma-joined list of exactly
the missing names (the required set minus the found set, in the sorted
order of the required `std::set`). -/
theorem claim_C8_missing (buf : List Char) (hdr : XarHeader)
    (found : List (List Char))
    (hlines : parseHeaderLines buf = .ok (hdr, found))
    (hmiss : requiredParameters.filter (fun p => p ∉ found) ≠ []) :
    parseXarHeaderBuf buf = .error ⟨.MISSING_PARAMETERS,
      joinCommaSpace (requiredParameters.filter (fun p => p ∉ found))⟩ := by
  simp only [parseXarHeaderBuf, hlines]
  rw [if_pos hmiss]

/-- Witness for C8: a header containing only the OFFSET line misses
UUID, VERSION and XAREXEC_TARGET, and the error detail joins exactly
those three names. -/
theorem claim_C8_witness :
    parseXarHeaderBuf
        (strL "#!/usr/bin/env xarexec_fuse\nOFFSET=\"4096\"\n#xar_stop\n") =
      .error ⟨.MISSING_PARAMETERS, strL "UUID, VERSION, XAREXEC_TARGET"⟩ := by
  have h := claim_C8_missing
    (strL "#!/usr/bin/env xarexec_fuse\nOFFSET=\"4096\"\n#xar_stop\n")
    { emptyXarHeader with offset := 4096 } [kOffsetNameL]
    (by decide) (by decide)
  rw [show joinCommaSpace (requiredParameters.filter
      (fun p => p ∉ [kOffsetNameL])) =
    strL "UUID, VERSION, XAREXEC_TARGET" from by decide] at h
  exact h

/-! ### Claim C9: JSON serialization -/

/-- Modelled from the spec: `join(delim, items)` (its C++ definition
lives in a header file not present under src/; the spec's serialization
section and the expectations in XarHelpersTest.cpp pin it down as the
delimiter-interleaved concatenation, empty for an empty list). -/
def join (delim : List Char) (xs : List (List Char)) : List Char :=
  List.intercalate delim xs

/-- `serializeHeaderAsJSON` from XarHelpers.cpp: start from `"{"`, then
for each name/value pair append `,` (except before the first pair,
detected by `ret.size() > 1`), the quoted name, `:` and the rendered
value; close with `"}"`.  OFFSET is rendered with `std::to_string`, the
other scalars are wrapped in double quotes, and the trampoline names
are rendered as a JSON array via `join`. -/
def serializeHeaderAsJSON (header : XarHeader) : List Char :=
  let pairs : List (List Char × List Char) :=
    [(kOffsetNameL, natToChars header.offset),
     (kUuidNameL, strL "\"" ++ header.uuid ++ strL "\""),
     (kVersionL, strL "\"" ++ header.version ++ strL "\""),
     (kXarexecTargetL, strL "\"" ++ header.xarexecTarget ++ strL "\""),
     (kXarexecTrampolineNamesL,
       strL "[\"" ++ join (strL "\",\"") header.xarexecTrampolineNames ++
         strL "\"]")]
  (pairs.foldl
    (fun ret p =>
      (if 1 < ret.length then ret ++ strL "," else ret) ++
        strL "\"" ++ p.1 ++ strL "\":" ++ p.2)
    (strL "\x7b")) ++ strL "\x7d"

set_option maxRecDepth 8192 in
/-- Claim C9: for every `XarHeader`, `serializeHeaderAsJSON` produces
the single-line JSON object with fields in the order OFFSET, UUID,
VERSION, XAREXEC_TARGET, XAREXEC_TRAMPOLINE_NAMES, where OFFSET is a
bare integer, the other scalar values are JSON strings, trampoline
names are a JSON array of strings, and no whitespace is emitted outside
the embedded values; in particular the spec's example header serializes
to exactly the expected string. -/
theorem claim_C9_serialize (h : XarHeader) :
    serializeHeaderAsJSON h =
      strL "\x7b\"OFFSET\":" ++ natToChars h.offset ++
        strL ",\"UUID\":\"" ++ h.uuid ++
        strL "\",\"VERSION\":\"" ++ h.version ++
        strL "\",\"XAREXEC_TARGET\":\"" ++ h.xarexecTarget ++
        strL "\",\"XAREXEC_TRAMPOLINE_NAMES\":[\"" ++
        join (strL "\",\"") h.xarexecTrampolineNames ++
        strL "\"]\x7d" ∧
    serializeHeaderAsJSON
        ⟨4096, strL "d770950c", strL "1628211316", strL "xar_bootstrap.sh",
          [strL "lookup.xar", strL "invoke_xar_via_trampoline"]⟩ =
      strL "\x7b\"OFFSET\":4096,\"UUID\":\"d770950c\",\"VERSION\":\"1628211316\",\"XAREXEC_TARGET\":\"xar_bootstrap.sh\",\"XAREXEC_TRAMPOLINE_NAMES\":[\"lookup.xar\",\"invoke_xar_via_trampoline\"]\x7d" := by
  have l1 : (strL "\x7b").length = 1 := by decide
  have l2 : (strL "\"").length = 1 := by decide
  have l3 : (strL "\":").length = 2 := by decide
  have l4 : (strL ",").length = 1 := by decide
  have lo : kOffsetNameL.length = 6 := by decide
  have lu : kUuidNameL.length = 4 := by decide
  have lv : kVersionL.length = 7 := by decide
  have lt2 : kXarexecTargetL.length = 14 := by decide
  have ln : kXarexecTrampolineNamesL.length = 24 := by decide
  have l5 : (strL "[\"").length = 2 := by decide
  constructor
  · simp only [serializeHeaderAsJSON, List.foldl_cons, List.foldl_nil]
    split_ifs <;>
      first
        | (exfalso
           simp only [List.length_append, l1, l2, l3, l4, lo, lu, lv, lt2,
             ln, l5, not_lt] at *
           omega)
        | (simp only [List.append_assoc]; rfl)
  · decide

/-! ### Mount supervisor models (XarExecFuse.cpp, XarLinux.cpp) -/

/-- The environment observations consumed by `main` in XarExecFuse.cpp
when computing the mount directory name: the `XAR_MOUNT_SEED`
environment variable, and the inodes of `/proc/self/ns/pid`,
`/proc/self/cgroup`'s cgroup path and `/proc/self/ns/mnt` when those
are available (`none` models an unset variable / failed stat). -/
structure SupervisorEnv where
  xarMountSeed : Option (List Char)
  pidNsInode : Option Nat
  cgroupInode : Option Nat
  mntNsInode : Option Nat
  deriving DecidableEq, Repr

/-- The `mount_directory` computation in `main` (XarExecFuse.cpp lines
420-435): start from the uuid; append `"-seed-" + seed` when
`XAR_MOUNT_SEED` is set, non-empty and contains no `/`; then append
`"-ns-" + inode` when `/proc/self/ns/mnt` is stattable.  This version
of the code never consults the pid-namespace or cgroup inodes. -/
def mount_directory (uuid : List Char) (env : SupervisorEnv) : List Char :=
  let md := uuid
  let md :=
    match env.xarMountSeed with
    | some s => if s ≠ [] ∧ '/' ∉ s then md ++ strL "-seed-" ++ s else md
    | none => md
  match env.mntNsInode with
  | some ino => md ++ strL "-ns-" ++ natToChars ino
  | none => md

/-- Modelled from the spec: the mount-directory computation as claim C3
words it, with the `"-seed-nspid" + inode` fallback (plus optional
`"_cgpid" + inode`) when no usable `XAR_MOUNT_SEED` is present.  This
fallback does not exist in the code under src/. -/
def mount_directory_claimed (uuid : List Char) (env : SupervisorEnv) :
    List Char :=
  let nspid :=
    match env.pidNsInode with
    | some i =>
      strL "-seed-nspid" ++ natToChars i ++
        (match env.cgroupInode with
         | some c => strL "_cgpid" ++ natToChars c
         | none => [])
    | none => []
  let md := uuid
  let md :=
    match env.xarMountSeed with
    | some s =>
      if s ≠ [] ∧ '/' ∉ s then md ++ strL "-seed-" ++ s else md ++ nspid
    | none => md ++ nspid
  match env.mntNsInode with
  | some ino => md ++ strL "-ns-" ++ natToChars ino
  | none => md

/-- Claim C3 (amended): the mount directory name starts with the uuid;
`"-seed-" + seed` is appended exactly when `XAR_MOUNT_SEED` is set,
non-empty and free of `/`; then `"-ns-" + inode` is appended when
`/proc/self/ns/mnt` is stattable.  No pid-namespace or cgroup fallback
exists: the result is independent of those two observations. -/
theorem claim_C3_mount_directory (uuid : List Char) (env : SupervisorEnv) :
    mount_directory uuid env =
      uuid ++
        (match env.xarMountSeed with
         | some s => if s ≠ [] ∧ '/' ∉ s then strL "-seed-" ++ s else []
         | none => []) ++
        (match env.mntNsInode with
         | some ino => strL "-ns-" ++ natToChars ino
         | none => []) ∧
    uuid <+: mount_directory uuid env ∧
    (∀ p c, mount_directory uuid env =
      mount_directory uuid ⟨env.xarMountSeed, p, c, env.mntNsInode⟩) := by
  have h1 : mount_directory uuid env =
      uuid ++
        (match env.xarMountSeed with
         | some s => if s ≠ [] ∧ '/' ∉ s then strL "-seed-" ++ s else []
         | none => []) ++
        (match env.mntNsInode with
         | some ino => strL "-ns-" ++ natToChars ino
         | none => []) := by
    rcases env with ⟨s, p, c, m⟩
    rcases s with _ | s <;> rcases m with _ | m <;>
      simp only [mount_directory] <;>
      first
        | (split_ifs <;> simp [List.append_assoc])
        | simp
  refine ⟨h1, ?_, fun p c => rfl⟩
  rw [h1, List.append_assoc]
  exact List.prefix_append _ _

/-- Counterexample to C3 as stated: with no seed, a stattable pid
namespace (inode 7) and a stattable mount namespace (inode 3), the code
produces `ab-ns-3` while the claim calls for `ab-seed-nspid7-ns-3`. -/
theorem claim_C3_counterexample :
    mount_directory (strL "ab") ⟨none, some 7, none, some 3⟩ =
      strL "ab-ns-3" ∧
    mount_directory_claimed (strL "ab") ⟨none, some 7, none, some 3⟩ =
      strL "ab-seed-nspid7-ns-3" ∧
    mount_directory (strL "ab") ⟨none, some 7, none, some 3⟩ ≠
      mount_directory_claimed (strL "ab") ⟨none, some 7, none, some 3⟩ :=
  ⟨by decide, by decide, by decide⟩

/-- The environment variables set by `main` (XarExecFuse.cpp lines
580-583) between mount completion and the final `execv`: the only
`setenv` call is `XARFUSE_NEW_MOUNT=1`, made when this invocation
performed the mount. -/
def envSetBeforeExec (newMount : Bool) : List (List Char × List Char) :=
  if newMount then [(strL "XARFUSE_NEW_MOUNT", strL "1")] else []

/-- Claim C4 (amended): before exec-ing the bootstrap the launcher does
not record any launch timestamp; the only environment variable it sets
is `XARFUSE_NEW_MOUNT=1`, and only when a fresh mount was performed. -/
theorem claim_C4_env (newMount : Bool) :
    envSetBeforeExec newMount =
      (if newMount then [(strL "XARFUSE_NEW_MOUNT", strL "1")] else []) ∧
    (∀ name v, (name, v) ∈ envSetBeforeExec newMount →
      name = strL "XARFUSE_NEW_MOUNT" ∧ v = strL "1" ∧ newMount = true) := by
  refine ⟨rfl, ?_⟩
  intro name v h
  cases newMount
  · simp [envSetBeforeExec] at h
  · simp only [envSetBeforeExec, if_pos, List.mem_singleton,
      Prod.mk.injEq] at h
    exact ⟨h.1, h.2, rfl⟩

/-- Counterexample to C4 as stated: `XAREXEC_LAUNCH_TIMESTAMP` is not
among the variables set before exec, whether or not a new mount was
performed. -/
theorem claim_C4_counterexample :
    ((envSetBeforeExec true).all
      (fun p => p.1 ≠ strL "XAREXEC_LAUNCH_TIMESTAMP")) = true ∧
    ((envSetBeforeExec false).all
      (fun p => p.1 ≠ strL "XAREXEC_LAUNCH_TIMESTAMP")) = true := by
  decide

/-- Witness for C4 at `newMount = true`. -/
theorem claim_C4_witness :
    strL "XARFUSE_NEW_MOUNT" = strL "XARFUSE_NEW_MOUNT" ∧
    strL "1" = strL "1" ∧ true = true :=
  (claim_C4_env true).2 (strL "XARFUSE_NEW_MOUNT") (strL "1") (by decide)

/-- `ENOTCONN` on Linux. -/
def ENOTCONN : Nat := 107

/-- `ECONNABORTED` on Linux. -/
def ECONNABORTED : Nat := 103

/-- `FUSE_SUPER_MAGIC` from XarLinux.cpp. -/
def FUSE_SUPER_MAGIC : Nat := 0x65735546

/-- `UNMOUNT_CMD` from XarLinux.cpp. -/
def UNMOUNT_CMD : List Char := strL "/bin/fusermount -z -q -u "

/-- The outcome of the `statfs` call in `is_squashfuse_mounted`: either
the filesystem type, or the failing errno. -/
inductive StatfsOutcome where
  | ok (fType : Nat)
  | fail (errno : Nat)
  deriving DecidableEq, Repr

/-- The observable outcome of `is_squashfuse_mounted`: a boolean return
together with the unmount command that was run through `system` (if
any), or a fatal abort. -/
inductive ProbeResult where
  | ret (mounted : Bool) (ranUnmountCmd : Option (List Char))
  | fatal
  deriving DecidableEq, Repr

/-- `is_squashfuse_mounted` from XarExecFuse.cpp (lines 217-235) as a
function of the `statfs` outcome and the exit status the shell would
return for the unmount command: on `statfs` failure, return false
without recovery when `try_fix` is unset; with `try_fix`, run
`UNMOUNT_CMD + path` and report the mount absent only for `ENOTCONN`
(aborting when the unmount command fails), and abort fatally on every
other errno.  On `statfs` success, report whether the filesystem type
is `FUSE_SUPER_MAGIC` (XarLinux.cpp `is_squashfs_mounted`). -/
def is_squashfuse_mounted (path : List Char) (statfsRes : StatfsOutcome)
    (try_fix : Bool) (unmountExit : Nat) : ProbeResult :=
  match statfsRes with
  | .fail e =>
    if ¬ try_fix then .ret false none
    else if e = ENOTCONN then
      if unmountExit ≠ 0 then .fatal
      else .ret false (some (UNMOUNT_CMD ++ path))
    else .fatal
  | .ok t => .ret (t == FUSE_SUPER_MAGIC) none

/-- Claim C5 (amended): with `try_fix` set, the recovery path (running
`fusermount -z -q -u <path>` and reporting the mount absent) is taken
exactly when `statfs` fails with `ENOTCONN` and the unmount command
succeeds; every other `statfs` errno is fatal with `try_fix` set
(including `ECONNABORTED`), as is a failing unmount command; without
`try_fix` a `statfs` failure just reports the mount absent. -/
theorem claim_C5_probe (path : List Char) (e : Nat) (unmountExit : Nat) :
    (is_squashfuse_mounted path (.fail e) true unmountExit =
        .ret false (some (UNMOUNT_CMD ++ path)) ↔
      (e = ENOTCONN ∧ unmountExit = 0)) ∧
    (e ≠ ENOTCONN →
      is_squashfuse_mounted path (.fail e) true unmountExit = .fatal) ∧
    (e = ENOTCONN → unmountExit ≠ 0 →
      is_squashfuse_mounted path (.fail e) true unmountExit = .fatal) ∧
    (is_squashfuse_mounted path (.fail e) false unmountExit =
      .ret false none) := by
  by_cases he : e = ENOTCONN
  · by_cases hu : unmountExit = 0
    · simp [is_squashfuse_mounted, he, hu]
    · simp [is_squashfuse_mounted, he, hu]
  · simp [is_squashfuse_mounted, he]

/-- Counterexample to C5 as stated: a `statfs` failure with
`ECONNABORTED` and `try_fix` set is fatal; the code does not run the
unmount command and report the mount absent as the claim says. -/
theorem claim_C5_counterexample :
    is_squashfuse_mounted (strL "/mnt/xarfuse/uid-0/x")
        (.fail ECONNABORTED) true 0 = .fatal ∧
    ProbeResult.fatal ≠
      .ret false (some (UNMOUNT_CMD ++ strL "/mnt/xarfuse/uid-0/x")) :=
  ⟨by decide, by decide⟩

/-- Witness for C5: `ECONNABORTED` (≠ `ENOTCONN`) with `try_fix` is
fatal. -/
theorem claim_C5_witness :
    is_squashfuse_mounted (strL "/m") (.fail 103) true 0 = .fatal :=
  (claim_C5_probe (strL "/m") 103 0).2.1 (by decide)

/-! ### Claim C10: the print-only mode of the launcher -/

/-- Filesystem-visible effects of the supervisor portion of `main`
modelled for claim C10. -/
inductive SupervisorEffect where
  | mkdirEff (path : List Char) (mode : Nat)
  | checkSanityDir (path : List Char) (mode : Nat)
  | checkSanityFile (path : List Char) (mode : Nat)
  | printLine (s : List Char)
  | openLockfile (path : List Char)
  | flockEff (path : List Char)
  | mountSetup (mountPath : List Char)
  deriving DecidableEq, Repr

/-- The per-user base directory path `<root>/uid-<euid>` computed by
`get_user_basedir` (XarExecFuse.cpp lines 120-133). -/
def get_user_basedir_path (basedir : List Char) (euid : Nat) : List Char :=
  basedir ++ strL "/uid-" ++ natToChars euid

/-- Effects of `get_user_basedir` on Linux: `mkdir` with mode 0755
(failure ignored) and then `check_file_sanity(Directory, 0755)`. -/
def get_user_basedir_effects (basedir : List Char) (euid : Nat) :
    List SupervisorEffect :=
  [.mkdirEff (get_user_basedir_path basedir euid) 0o755,
   .checkSanityDir (get_user_basedir_path basedir euid) 0o755]

/-- The portion of `main` from `get_user_basedir` through the
print-only exit or, otherwise, the lock grab (`grab_lock`: open/create
the lockfile, sanity-check it as a 0600 file, `flock`), the mountpoint
`mkdir` and the mount decision (XarExecFuse.cpp lines 410-462), as a
trace of effects together with the exit code when this portion exits.
Everything from the mount probe onward is summarized by the final
`mountSetup` effect, which the print-only path never reaches. -/
def supervisorTail (print_only : Bool) (mountroot uuid : List Char)
    (env : SupervisorEnv) (euid : Nat) :
    List SupervisorEffect × Option Nat :=
  let user_basedir := get_user_basedir_path mountroot euid
  let mountDir := mount_directory uuid env
  let mount_path := user_basedir ++ strL "/" ++ mountDir
  if print_only then
    (get_user_basedir_effects mountroot euid ++ [.printLine mount_path],
      some 0)
  else
    let lockfile := user_basedir ++ strL "/lockfile." ++ mountDir
    (get_user_basedir_effects mountroot euid ++
      [.openLockfile lockfile, .checkSanityFile lockfile 0o600,
        .flockEff lockfile, .mkdirEff mount_path 0o755,
        .mountSetup mount_path],
      none)

/-- Claim C10: invoked with `-n` (print-only), the launcher prints the
computed mountpoint and exits 0; the trace contains no lockfile open,
no flock, no mount attempt and no mkdir of the mountpoint directory —
but the per-user base directory is still created with mode 0755 and
sanity-checked. -/
theorem claim_C10_print_only (mountroot uuid : List Char)
    (env : SupervisorEnv) (euid : Nat) :
    supervisorTail true mountroot uuid env euid =
      ([.mkdirEff (get_user_basedir_path mountroot euid) 0o755,
        .checkSanityDir (get_user_basedir_path mountroot euid) 0o755,
        .printLine (get_user_basedir_path mountroot euid ++ strL "/" ++
          mount_directory uuid env)], some 0) ∧
    (∀ p, SupervisorEffect.openLockfile p ∉
      (supervisorTail true mountroot uuid env euid).1) ∧
    (∀ p, SupervisorEffect.flockEff p ∉
      (supervisorTail true mountroot uuid env euid).1) ∧
    (∀ p, SupervisorEffect.mountSetup p ∉
      (supervisorTail true mountroot uuid env euid).1) ∧
    SupervisorEffect.mkdirEff
        (get_user_basedir_path mountroot euid ++ strL "/" ++
          mount_directory uuid env) 0o755 ∉
      (supervisorTail true mountroot uuid env euid).1 := by
  have h1 : supervisorTail true mountroot uuid env euid =
      ([.mkdirEff (get_user_basedir_path mountroot euid) 0o755,
        .checkSanityDir (get_user_basedir_path mountroot euid) 0o755,
        .printLine (get_user_basedir_path mountroot euid ++ strL "/" ++
          mount_directory uuid env)], some 0) := rfl
  refine ⟨h1, ?_, ?_, ?_, ?_⟩
  · intro p
    rw [h1]
    simp
  · intro p
    rw [h1]
    simp
  · intro p
    rw [h1]
    simp
  · rw [h1]
    intro hmem
    simp only [List.mem_cons, List.not_mem_nil, or_false,
      List.mem_singleton] at hmem
    rcases hmem with h | h | h
    · have := congrArg
        (fun e => match e with
          | SupervisorEffect.mkdirEff p _ => p.length
          | _ => 0) h
      simp only [List.length_append] at this
      have hslash : (strL "/").length = 1 := by decide
      rw [hslash] at this
      omega
    · cases h
    · cases h

end Xar
